import Mathlib

/-!
Shallow embedding of `gen.py`, a minimal static-site generator.

The script reads Markdown files (content directory plus repository root),
extracts front-matter metadata, converts bodies to HTML, renders them through
templates and writes the results next to the sources, together with a
generated `index.md` listing the content posts sorted by date descending.

External collaborators (the `markdown` converter, the `jinja2` template
engine, the filesystem) are modelled as explicit parameters:
  * the Markdown conversion is a function `conv : String → String × Meta`
    returning the HTML body fragment and the front-matter mapping
    (`md.convert` plus `md.Meta`);
  * the Jinja rendering is a function `jr : String → List (String × String)
    → String` taking the template text and the keyword bindings;
  * the filesystem is an association list from paths to file contents, and
    the two `glob` calls are modelled by predicates on paths that follow
    Python's glob semantics for the literal patterns `"./content/*.md"` and
    `"*.md"` (match the pattern, no path separator in the starred part, no
    leading dot in the starred component).
-/

namespace Gen

/-- The `post_type` tag: `"content"` or `"meta"` in the script. -/
inductive PostType where
  | content
  | meta
deriving DecidableEq

/-- The `Post` class of `gen.py`: `content`, `filename`, `title`, `date`,
`post_type`.  `filename` stores `filename[:-2]`, i.e. the source path with
its last two characters (the `md` of `.md`) removed; `date` is `None` when
the front matter has no `date` key. -/
structure Post where
  content : String
  filename : String
  title : String
  date : Option String
  post_type : PostType
deriving DecidableEq

/-- Uncaught Python exceptions the script can die with. -/
inductive PyErr where
  | keyError (k : String)
  | indexError
  | typeError
  | ioError
deriving DecidableEq

/-- Front matter as produced by the `meta` Markdown extension: a mapping
from keys to lists of string values. -/
abbrev Meta := List (String × List String)

/-- `md.Meta[k]`, as an optional lookup. -/
def metaLookup (m : Meta) (k : String) : Option (List String) :=
  List.lookup k m

/-- Python `str(x)` on an optional string: `None` prints as `"None"`. -/
def pyStr : Option String → String
  | none => "None"
  | some s => s

/-- Python `s[:-2]`: the string without its last two characters. -/
def pyDropLast2 (s : String) : String :=
  ⟨s.data.dropLast.dropLast⟩

/-- The body of the `get_posts` loop for one file: `md.convert` has already
produced `content` and `meta`; the `Post` constructor runs
`title = md.Meta["title"].pop()` (an uncaught `KeyError` when the key is
missing, `IndexError` on an empty value list; `pop()` takes the LAST list
element) and `date = md.Meta["date"].pop()` guarded by
`try/except KeyError` (so a missing `date` key gives `None`, but an empty
`date` value list still dies with an uncaught `IndexError`). -/
def makePost (content path : String) (meta : Meta) (t : PostType) :
    Except PyErr Post :=
  match metaLookup meta "title" with
  | none => .error (PyErr.keyError "title")
  | some ts =>
    match ts.getLast? with
    | none => .error PyErr.indexError
    | some title =>
      match metaLookup meta "date" with
      | none => .ok ⟨content, pyDropLast2 path, title, none, t⟩
      | some ds =>
        match ds.getLast? with
        | none => .error PyErr.indexError
        | some d => .ok ⟨content, pyDropLast2 path, title, some d, t⟩

/-- The filesystem: an association list from paths to file contents. -/
abbrev FS := List (String × String)

/-- Read a file (`open(p).read()`); `none` models a missing file. -/
def readFS (fs : FS) (p : String) : Option String :=
  (fs.find? (fun kv => kv.1 == p)).map (fun kv => kv.2)

/-- Write a file (`open(p, "w").write(v)`): overwrite in place when the path
exists, otherwise create it. -/
def writeFS (fs : FS) (p v : String) : FS :=
  if fs.any (fun kv => kv.1 == p) then
    fs.map (fun kv => if kv.1 == p then (p, v) else kv)
  else
    fs ++ [(p, v)]

/-- `glob(pattern)` over the modelled filesystem: the paths currently
present, kept in filesystem order, filtered by the pattern. -/
def globFS (fs : FS) (m : String → Bool) : List String :=
  (fs.map (fun kv => kv.1)).filter m

/-- Does a character list end with `".md"`? -/
def charListEndsMd (l : List Char) : Bool :=
  decide (l.reverse.take 3 = ['d', 'm', '.'])

/-- Does a character list start with `"./content/"`? -/
def startsContent (l : List Char) : Bool :=
  decide (l.take 10 = ['.', '/', 'c', 'o', 'n', 't', 'e', 'n', 't', '/'])

/-- The pattern `"./content/*.md"`: starts with `"./content/"`, ends with
`".md"`, and the starred component neither starts with a dot (glob skips
hidden files) nor contains a path separator. -/
def isContentMd (s : String) : Bool :=
  startsContent s.data && charListEndsMd s.data &&
    !(decide ((s.data.drop 10).head? = some '.')) &&
    !((s.data.drop 10).contains '/')

/-- The pattern `"*.md"` at the repository root: ends with `".md"`, no path
separator anywhere, and no leading dot (glob skips hidden files). -/
def isRootMd (s : String) : Bool :=
  (match s.data.head? with
   | none => false
   | some c => !(c = '.')) &&
    !(s.data.contains '/') && charListEndsMd s.data

/-- `get_posts(post_path, post_type)`: iterate over the glob result, skip a
file literally named `README.md`, read and convert every other file and
build its `Post`; the first uncaught exception aborts the whole call. -/
def getPosts (conv : String → String × Meta) (fs : FS)
    (paths : List String) (t : PostType) : Except PyErr (List Post) :=
  match paths with
  | [] => .ok []
  | p :: rest =>
    if p == "README.md" then
      getPosts conv fs rest t
    else
      match readFS fs p with
      | none => .error PyErr.ioError
      | some data =>
        match makePost (conv data).1 p (conv data).2 t with
        | .error e => .error e
        | .ok post =>
          match getPosts conv fs rest t with
          | .error e => .error e
          | .ok posts => .ok (post :: posts)

/-- Comparison of two optional date strings, `none` below every string.
String comparison is lexicographic by code point, as in Python.  The
`none` arms are never reached by the modelled sort: Python raises
`TypeError` instead of comparing `None` (see `pySortByDateDesc`). -/
def optLe (x y : Option String) : Prop :=
  match x, y with
  | none, _ => True
  | some _, none => False
  | some a, some b => a ≤ b

instance : DecidableRel optLe := fun x y => by
  unfold optLe
  rcases x with _ | a <;> rcases y with _ | b <;> dsimp <;> infer_instance

theorem optLe_total (x y : Option String) : optLe x y ∨ optLe y x := by
  unfold optLe
  rcases x with _ | a <;> rcases y with _ | b
  · exact Or.inl trivial
  · exact Or.inl trivial
  · exact Or.inr trivial
  · exact le_total a b

theorem optLe_trans {x y z : Option String} (h1 : optLe x y)
    (h2 : optLe y z) : optLe x z := by
  unfold optLe at *
  rcases x with _ | a <;> rcases y with _ | b <;> rcases z with _ | c
  · exact trivial
  · exact trivial
  · exact trivial
  · exact trivial
  · exact (h1 : False)
  · exact (h1 : False).elim
  · exact (h2 : False)
  · exact (le_trans (h1 : a ≤ b) (h2 : b ≤ c) : a ≤ c)

/-- The ordering used by `content_posts.sort(key=lambda post: post.date,
reverse=True)`: `p` may come before `q` exactly when `q`'s key is at most
`p`'s key (descending and stable). -/
def postGe (p q : Post) : Prop :=
  optLe q.date p.date

instance : DecidableRel postGe := fun p q =>
  inferInstanceAs (Decidable (optLe q.date p.date))

instance : IsTotal Post postGe :=
  ⟨fun p q => optLe_total q.date p.date⟩

instance : IsTrans Post postGe :=
  ⟨fun _ _ _ hab hbc => optLe_trans hbc hab⟩

/-- `content_posts.sort(key=lambda post: post.date, reverse=True)`.
CPython's sort compares every adjacent pair of keys at least once, and any
comparison involving `None` raises an uncaught `TypeError`; so the call
raises exactly when the list has at least two elements and some key is
`None`, and otherwise produces the stable descending order. -/
def pySortByDateDesc (posts : List Post) : Except PyErr (List Post) :=
  if 2 ≤ posts.length ∧ posts.any (fun p => p.date.isNone) then
    .error PyErr.typeError
  else
    .ok (List.insertionSort postGe posts)

/-- One line of the index: `"[{}]({}) ({})\n\n".format(post.title,
post.filename + "html", post.date)`. -/
def entryLine (p : Post) : String :=
  "[" ++ p.title ++ "](" ++ p.filename ++ "html" ++ ") (" ++
    pyStr p.date ++ ")" ++ "\n\n"

/-- The full text written to `index.md`: the header followed by one entry
per content post, in list order. -/
def indexText (posts : List Post) : String :=
  posts.foldl (fun acc p => acc ++ entryLine p) "title: Index\n\n"

/-- The keyword bindings passed to the content template:
`render(content=..., title=..., date=...)`. -/
def contentVars (p : Post) : List (String × String) :=
  [("content", p.content), ("title", p.title), ("date", pyStr p.date)]

/-- The keyword bindings passed to the meta template:
`render(content=..., title=...)` — no `date` binding. -/
def metaVars (p : Post) : List (String × String) :=
  [("content", p.content), ("title", p.title)]

/-- `Post.render_html`: pick the template file by `post_type`, read it and
render it with the bindings of that branch. -/
def renderHtml (jr : String → List (String × String) → String) (fs : FS)
    (p : Post) : Except PyErr String :=
  match p.post_type with
  | PostType.content =>
    match readFS fs "templates/content.html" with
    | none => .error PyErr.ioError
    | some t => .ok (jr t (contentVars p))
  | PostType.meta =>
    match readFS fs "templates/meta.html" with
    | none => .error PyErr.ioError
    | some t => .ok (jr t (metaVars p))

/-- `Post.write_to_file` target: `self.filename + "html"`. -/
def outPath (p : Post) : String :=
  p.filename ++ "html"

/-- `make_html(post_list)`: for each post in order, render it and write the
result; the first failure aborts, leaving the writes made so far. -/
def makeHtml (jr : String → List (String × String) → String) (fs : FS)
    (posts : List Post) : FS × Option PyErr :=
  match posts with
  | [] => (fs, none)
  | p :: rest =>
    match renderHtml jr fs p with
    | .error e => (fs, some e)
    | .ok h => makeHtml jr (writeFS fs (outPath p) h) rest

/-- The phases of the script's top level, in the order they are entered. -/
inductive Phase where
  | loadContent
  | sortPosts
  | writeIndexFile
  | loadRoot
  | renderContent
  | renderMeta
deriving DecidableEq

/-- The trace of a complete run, straight from the module top level of
`gen.py` (lines 58-70): load content, sort, write `index.md`, load the
root-level Markdown, render+write the content posts, render+write the meta
posts. -/
def fullTrace : List Phase :=
  [Phase.loadContent, Phase.sortPosts, Phase.writeIndexFile, Phase.loadRoot,
   Phase.renderContent, Phase.renderMeta]

/-- The module top level of `gen.py`, with an explicit trace of the phases
entered: returns the phases run, the resulting filesystem, and the uncaught
exception if one was raised. -/
def runPipelineT (conv : String → String × Meta)
    (jr : String → List (String × String) → String) (fs0 : FS) :
    List Phase × FS × Option PyErr :=
  match getPosts conv fs0 (globFS fs0 isContentMd) PostType.content with
  | .error e => ([Phase.loadContent], fs0, some e)
  | .ok cp =>
    match pySortByDateDesc cp with
    | .error e => ([Phase.loadContent, Phase.sortPosts], fs0, some e)
    | .ok sorted =>
      let fs1 := writeFS fs0 "index.md" (indexText sorted)
      match getPosts conv fs1 (globFS fs1 isRootMd) PostType.meta with
      | .error e =>
        ([Phase.loadContent, Phase.sortPosts, Phase.writeIndexFile,
          Phase.loadRoot], fs1, some e)
      | .ok mp =>
        match makeHtml jr fs1 sorted with
        | (fs2, some e) =>
          ([Phase.loadContent, Phase.sortPosts, Phase.writeIndexFile,
            Phase.loadRoot, Phase.renderContent], fs2, some e)
        | (fs2, none) =>
          match makeHtml jr fs2 mp with
          | (fs3, oe) => (fullTrace, fs3, oe)

/-- The index format as the specification words it: a heading, then one
entry `[title](filename.html) (date)` per post, each followed by a blank
line.  (`filename.html` is `post.filename + "html"` because `filename`
already carries the trailing dot of the stripped `.md` extension.) -/
def specIndexText (posts : List Post) : String :=
  "title: Index\n\n" ++
    String.join (posts.map (fun p =>
      "[" ++ p.title ++ "](" ++ p.filename ++ "html" ++ ") (" ++
        pyStr p.date ++ ")" ++ "\n\n"))

/-! ### General lemmas about the embedding -/

theorem foldl_append_eq_join (f : Post → String) (posts : List Post)
    (s : String) :
    posts.foldl (fun acc p => acc ++ f p) s
      = s ++ String.join (posts.map f) := by
  induction posts generalizing s with
  | nil => simp [String.join]
  | cons p rest ih =>
    rw [List.foldl_cons, ih, List.map_cons]
    apply String.ext
    simp [String.data_join]

theorem makePost_ok (c p : String) (m : Meta) (t : PostType) (post : Post)
    (h : makePost c p m t = .ok post) :
    post.content = c ∧ post.filename = pyDropLast2 p ∧
      post.post_type = t ∧
      (∃ ts, metaLookup m "title" = some ts ∧
        ts.getLast? = some post.title) ∧
      (metaLookup m "date" = none → post.date = none) ∧
      (∀ ds, metaLookup m "date" = some ds → post.date = ds.getLast?) := by
  unfold makePost at h
  split at h
  · simp at h
  next ts hT =>
    split at h
    · simp at h
    next ttl hL =>
      split at h
      next hD =>
        injection h with h
        subst h
        refine ⟨rfl, rfl, rfl, ⟨ts, hT, hL⟩, fun _ => rfl, ?_⟩
        intro ds hds
        rw [hD] at hds
        cases hds
      next ds hD =>
        split at h
        · simp at h
        next d hG =>
          injection h with h
          subst h
          refine ⟨rfl, rfl, rfl, ⟨ts, hT, hL⟩, ?_, ?_⟩
          · intro hc; rw [hD] at hc; cases hc
          · intro ds' hds'
            rw [hD] at hds'
            injection hds' with hds'
            subst hds'
            rw [hG]

theorem dropLast2_append_md (l : List Char) :
    (l ++ ['.', 'm', 'd']).dropLast.dropLast = l ++ ['.'] := by
  have h1 : l ++ ['.', 'm', 'd'] = (l ++ ['.', 'm']) ++ ['d'] := by simp
  rw [h1, List.dropLast_concat]
  have h2 : l ++ ['.', 'm'] = (l ++ ['.']) ++ ['m'] := by simp
  rw [h2, List.dropLast_concat]

/-! ### Claim theorems -/

/-- **C8**: the generated `index.md` consists of the header followed by one
line per content post of the form `[title](filename.html) (date)`, each
entry followed by a blank line; with zero content posts it contains only
the header line and no entries. -/
theorem c8_index_shape :
    (∀ posts : List Post, indexText posts = specIndexText posts) ∧
      indexText ([] : List Post) = "title: Index\n\n" := by
  constructor
  · intro posts
    unfold indexText specIndexText
    rw [foldl_append_eq_join]
    rfl
  · rfl

/-- **C5**: a file literally named `README.md` is skipped by `get_posts`:
the produced posts are exactly those of the path list with `README.md`
filtered out, so such a file is never loaded, converted, written, or
listed in the index (all of which consume `get_posts` output). -/
theorem c5_readme_skipped (conv : String → String × Meta) (fs : FS)
    (paths : List String) (t : PostType) :
    getPosts conv fs paths t
      = getPosts conv fs (paths.filter (fun p => !(p == "README.md"))) t := by
  induction paths with
  | nil => rfl
  | cons p rest ih =>
    cases hp : (p == "README.md") with
    | true =>
      rw [getPosts, if_pos hp, List.filter_cons, hp]
      exact ih
    | false =>
      rw [getPosts, if_neg (by rw [hp]; exact Bool.false_ne_true),
        List.filter_cons, hp]
      show _ = getPosts conv fs (p :: _) t
      rw [getPosts, if_neg (by rw [hp]; exact Bool.false_ne_true), ih]

/-- The metadata of the counterexample for C3: a `title` front-matter key
whose value list has two entries (as the `meta` Markdown extension
produces for a multi-line value). -/
def c3Meta : Meta := [("title", ["First", "Second"])]

/-- **C3, counterexample**: on front matter whose `title` key has the
value list `["First", "Second"]`, the loaded post's title is `"Second"`
(the `pop()` of the list, its last element), not the first value
`"First"` that the claim asserts. -/
theorem c3_counterexample :
    makePost "" "a.md" c3Meta PostType.meta
        = .ok ⟨"", pyDropLast2 "a.md", "Second", none, PostType.meta⟩
      ∧ (metaLookup c3Meta "title").map List.head? = some (some "First")
      ∧ ("Second" : String) ≠ "First" :=
  ⟨rfl, rfl, by decide⟩

/-- **C3, amended**: for every loaded post, the title equals the LAST
value in the list of values of the `title` front-matter key (and likewise
the date, when present, equals the last value of the `date` key; a missing
`date` key gives a null date). -/
theorem c3_title_is_last_value (c p : String) (m : Meta) (t : PostType)
    (post : Post) (h : makePost c p m t = .ok post) :
    (∃ ts, metaLookup m "title" = some ts ∧ ts.getLast? = some post.title)
      ∧ (metaLookup m "date" = none → post.date = none)
      ∧ (∀ ds, metaLookup m "date" = some ds → post.date = ds.getLast?) :=
  ⟨(makePost_ok c p m t post h).2.2.2.1,
   (makePost_ok c p m t post h).2.2.2.2.1,
   (makePost_ok c p m t post h).2.2.2.2.2⟩

/-- The post loaded from `c3Meta` in the witness for the amended C3. -/
def c3Post : Post := ⟨"", pyDropLast2 "b.md", "Second", none, PostType.meta⟩

/-- Witness for the amended C3 at a concrete input. -/
theorem c3_title_is_last_value_witness :
    (∃ ts, metaLookup c3Meta "title" = some ts ∧
      ts.getLast? = some c3Post.title)
      ∧ (metaLookup c3Meta "date" = none → c3Post.date = none)
      ∧ (∀ ds, metaLookup c3Meta "date" = some ds →
          c3Post.date = ds.getLast?) :=
  c3_title_is_last_value "" "b.md" c3Meta PostType.meta c3Post rfl

/-- **C6**: rendering a meta (standalone) post is independent of its date:
two meta posts with the same content and title render identically whatever
their dates, and the bindings passed to the template engine for a meta
post contain no `date` key at all. -/
theorem c6_meta_render_date_free (jr : String → List (String × String) → String)
    (fs : FS) (p q : Post) (hp : p.post_type = PostType.meta)
    (hq : q.post_type = PostType.meta) (hc : p.content = q.content)
    (ht : p.title = q.title) :
    renderHtml jr fs p = renderHtml jr fs q
      ∧ ∀ kv ∈ metaVars p, kv.1 ≠ "date" := by
  constructor
  · unfold renderHtml
    rw [hp, hq]
    unfold metaVars
    rw [hc, ht]
  · intro kv hkv
    unfold metaVars at hkv
    simp only [List.mem_cons, List.not_mem_nil, or_false] at hkv
    rcases hkv with h | h <;> rw [h] <;> simp

/-- Concrete meta post with a date, for the C6 witness. -/
def c6PostDated : Post := ⟨"c", "f.", "t", some "2024-01-01", PostType.meta⟩

/-- Concrete meta post without a date, for the C6 witness. -/
def c6PostUndated : Post := ⟨"c", "f.", "t", none, PostType.meta⟩

/-- Concrete template engine for witnesses: concatenates the template text
with all binding values. -/
def jrConcat (t : String) (vars : List (String × String)) : String :=
  t ++ String.join (vars.map (fun kv => kv.2))

/-- Witness for C6: the two concrete meta posts differing only in their
date render to the same HTML. -/
theorem c6_meta_render_date_free_witness :
    renderHtml jrConcat [("templates/meta.html", "M")] c6PostDated
        = renderHtml jrConcat [("templates/meta.html", "M")] c6PostUndated
      ∧ ∀ kv ∈ metaVars c6PostDated, kv.1 ≠ "date" :=
  c6_meta_render_date_free jrConcat [("templates/meta.html", "M")]
    c6PostDated c6PostUndated rfl rfl rfl rfl

/-- **C7**: for a source path `stem ++ ".md"`, the output path written by
`write_to_file` is `stem ++ ".html"`: only the trailing Markdown extension
is swapped, nothing else in the path changes. -/
theorem c7_output_path (stem c : String) (m : Meta) (t : PostType)
    (post : Post) (h : makePost c (stem ++ ".md") m t = .ok post) :
    outPath post = stem ++ ".html" := by
  have hf : post.filename = pyDropLast2 (stem ++ ".md") :=
    (makePost_ok c (stem ++ ".md") m t post h).2.1
  unfold outPath
  rw [hf]
  unfold pyDropLast2
  apply String.ext
  rw [String.data_append]
  show ((stem ++ ".md").data.dropLast.dropLast : List Char) ++ "html".data
      = (stem ++ ".html").data
  rw [String.data_append, String.data_append,
    show (".md".data : List Char) = ['.', 'm', 'd'] from rfl,
    dropLast2_append_md]
  simp

/-- Front matter for the C7 witness. -/
def c7Meta : Meta := [("title", ["T"])]

/-- The post loaded from `content/my-post.md` in the C7 witness. -/
def c7Post : Post :=
  ⟨"", pyDropLast2 ("content/my-post" ++ ".md"), "T", none,
    PostType.content⟩

/-- Witness for C7 at the spec's own example: `content/my-post.md` is
written to `content/my-post.html`. -/
theorem c7_output_path_witness :
    outPath c7Post = "content/my-post" ++ ".html" :=
  c7_output_path "content/my-post" "" c7Meta PostType.content c7Post rfl

/-- A `title`-less front matter makes `makePost` die with the uncaught
`KeyError` of `md.Meta["title"]`. -/
theorem makePost_missing_title (c p : String) (m : Meta) (t : PostType)
    (h : metaLookup m "title" = none) :
    makePost c p m t = .error (PyErr.keyError "title") := by
  unfold makePost
  rw [h]

/-- Inversion for a successful `get_posts`: every non-`README.md` path in
the list was read and loaded successfully. -/
theorem getPosts_ok_item (conv : String → String × Meta) (fs : FS)
    (paths : List String) (t : PostType) (p : String) :
    ∀ posts, getPosts conv fs paths t = .ok posts → p ∈ paths →
      (p == "README.md") = false →
      ∃ data post, readFS fs p = some data ∧
        makePost (conv data).1 p (conv data).2 t = .ok post := by
  induction paths with
  | nil => intro posts _ hp _; cases hp
  | cons q rest ih =>
    intro posts h hp hne
    rw [getPosts] at h
    by_cases hq : (q == "README.md") = true
    · rw [if_pos hq] at h
      rcases List.mem_cons.mp hp with rfl | hmem
      · rw [hq] at hne; cases hne
      · exact ih posts h hmem hne
    · rw [if_neg hq] at h
      split at h
      · simp at h
      next data hr =>
        split at h
        · simp at h
        next post hm =>
          split at h
          · simp at h
          next posts' hrest =>
            rcases List.mem_cons.mp hp with rfl | hmem
            · exact ⟨data, post, hr, hm⟩
            · exact ih posts' hrest hmem hne

/-- **C4**: a Markdown file whose front matter lacks the `title` key makes
the load raise an uncaught error; when it is a content file the whole run
dies while still in the load phase, with the input filesystem untouched;
a missing `date` key, by contrast, still loads the post with a null date. -/
theorem c4_missing_title_aborts (conv : String → String × Meta)
    (jr : String → List (String × String) → String) (fs : FS)
    (c p : String) (m : Meta) (t : PostType) (data : String) :
    (metaLookup m "title" = none →
        makePost c p m t = .error (PyErr.keyError "title"))
    ∧ (p ∈ globFS fs isContentMd → (p == "README.md") = false →
        readFS fs p = some data →
        metaLookup (conv data).2 "title" = none →
        (runPipelineT conv jr fs).1 = [Phase.loadContent]
          ∧ (runPipelineT conv jr fs).2.1 = fs
          ∧ ∃ e, (runPipelineT conv jr fs).2.2 = some e)
    ∧ (∀ ts ttl, metaLookup m "title" = some ts → ts.getLast? = some ttl →
        metaLookup m "date" = none →
        makePost c p m t = .ok ⟨c, pyDropLast2 p, ttl, none, t⟩) := by
  refine ⟨makePost_missing_title c p m t, ?_, ?_⟩
  · intro hglob hne hread hmeta
    cases hres : getPosts conv fs (globFS fs isContentMd) PostType.content with
    | error e =>
      refine ⟨?_, ?_, e, ?_⟩ <;> simp [runPipelineT, hres]
    | ok posts =>
      exfalso
      obtain ⟨data', post, hr', hm'⟩ :=
        getPosts_ok_item conv fs (globFS fs isContentMd) PostType.content p
          posts hres hglob hne
      rw [hread] at hr'
      injection hr' with hr'
      subst hr'
      rw [makePost_missing_title _ _ _ _ hmeta] at hm'
      cases hm'
  · intro ts ttl hT hL hD
    unfold makePost
    rw [hT]
    show (match ts.getLast? with
      | none => Except.error PyErr.indexError
      | some title =>
        match metaLookup m "date" with
        | none => Except.ok (Post.mk c (pyDropLast2 p) title none t)
        | some ds =>
          match ds.getLast? with
          | none => Except.error PyErr.indexError
          | some d =>
            Except.ok (Post.mk c (pyDropLast2 p) title (some d) t)) = _
    rw [hL]
    show (match metaLookup m "date" with
      | none => Except.ok (Post.mk c (pyDropLast2 p) ttl none t)
      | some ds =>
        match ds.getLast? with
        | none => Except.error PyErr.indexError
        | some d =>
          Except.ok (Post.mk c (pyDropLast2 p) ttl (some d) t)) = _
    rw [hD]

/-- Filesystem for the C4 witness: one content file with no front matter. -/
def c4FS : FS := [("./content/a.md", "A")]

/-- Converter for the C4 witness: empty body, empty metadata. -/
def c4Conv : String → String × Meta := fun _ => ("", [])

/-- Witness for C4 at concrete inputs: the title-less post kills the run
during loading and leaves the filesystem unchanged, while a date-less post
still loads with a null date. -/
theorem c4_missing_title_aborts_witness :
    makePost "x" "a.md" ([] : Meta) PostType.content
        = .error (PyErr.keyError "title")
      ∧ ((runPipelineT c4Conv jrConcat c4FS).1 = [Phase.loadContent]
          ∧ (runPipelineT c4Conv jrConcat c4FS).2.1 = c4FS
          ∧ ∃ e, (runPipelineT c4Conv jrConcat c4FS).2.2 = some e)
      ∧ makePost "x" "b.md" [("title", ["T"])] PostType.meta
          = .ok ⟨"x", pyDropLast2 "b.md", "T", none, PostType.meta⟩ :=
  ⟨(c4_missing_title_aborts c4Conv jrConcat c4FS "x" "a.md" [] PostType.content "A").1 rfl,
   (c4_missing_title_aborts c4Conv jrConcat c4FS "x" "./content/a.md" []
      PostType.content "A").2.1 (by decide) (by decide) rfl rfl,
   (c4_missing_title_aborts c4Conv jrConcat c4FS "x" "b.md"
      [("title", ["T"])] PostType.meta "A").2.2 ["T"] "T" rfl rfl rfl⟩

/-- **C10**: two or more content posts with at least one null date make the
sort die with an uncaught `TypeError`; the run aborts right after the sort
phase with the filesystem untouched — no `index.md`, no HTML output. -/
theorem c10_sort_none_aborts (conv : String → String × Meta)
    (jr : String → List (String × String) → String) (fs : FS)
    (posts : List Post) (q : Post)
    (h1 : getPosts conv fs (globFS fs isContentMd) PostType.content
          = .ok posts)
    (h2 : 2 ≤ posts.length) (h3 : q ∈ posts) (h4 : q.date = none) :
    runPipelineT conv jr fs
      = ([Phase.loadContent, Phase.sortPosts], fs, some PyErr.typeError) := by
  have hsort : pySortByDateDesc posts = .error PyErr.typeError := by
    unfold pySortByDateDesc
    rw [if_pos ⟨h2, List.any_eq_true.mpr ⟨q, h3, by rw [h4]; rfl⟩⟩]
  simp [runPipelineT, h1, hsort]

/-- Filesystem for the C10 witness: two content files. -/
def c10FS : FS := [("./content/a.md", "A"), ("./content/b.md", "B")]

/-- Converter for the C10 witness: file `A` has a date, file `B` has not. -/
def c10Conv : String → String × Meta := fun s =>
  if s = "A" then ("", [("title", ["a"]), ("date", ["2024-01-01"])])
  else ("", [("title", ["b"])])

/-- The dated post of the C10 witness. -/
def c10PostA : Post :=
  ⟨"", pyDropLast2 "./content/a.md", "a", some "2024-01-01",
    PostType.content⟩

/-- The date-less post of the C10 witness. -/
def c10PostB : Post :=
  ⟨"", pyDropLast2 "./content/b.md", "b", none, PostType.content⟩

/-- Witness for C10 at concrete inputs. -/
theorem c10_sort_none_aborts_witness :
    runPipelineT c10Conv jrConcat c10FS
      = ([Phase.loadContent, Phase.sortPosts], c10FS,
          some PyErr.typeError) :=
  c10_sort_none_aborts c10Conv jrConcat c10FS [c10PostA, c10PostB]
    c10PostB rfl (by decide) (by simp) rfl

/-- **C1**: in the sorted list that the generated index lists in order, an
entry with a lexicographically greater date string always precedes an
entry with a smaller one: if positions `i` and `j` hold dates `d1 > d2`,
then `i < j`. -/
theorem c1_index_sorted (posts sorted : List Post)
    (hok : pySortByDateDesc posts = .ok sorted)
    (i j : Nat) (hi : i < sorted.length) (hj : j < sorted.length)
    (d1 d2 : String)
    (h1 : (sorted.get ⟨i, hi⟩).date = some d1)
    (h2 : (sorted.get ⟨j, hj⟩).date = some d2)
    (hgt : d2 < d1) : i < j := by
  have hs : List.Sorted postGe sorted := by
    unfold pySortByDateDesc at hok
    split at hok
    · cases hok
    · injection hok with hok
      rw [← hok]
      exact List.sorted_insertionSort postGe posts
  by_contra hij
  push_neg at hij
  rcases lt_or_eq_of_le hij with hlt | heq
  · have hrel := hs.rel_get_of_lt
      (show (⟨j, hj⟩ : Fin sorted.length) < ⟨i, hi⟩ from hlt)
    unfold postGe at hrel
    rw [h1, h2] at hrel
    exact absurd (hrel : d1 ≤ d2) (not_le.mpr hgt)
  · subst heq
    have hdd : some d1 = some d2 := h1.symm.trans h2
    injection hdd with hdd
    rw [hdd] at hgt
    exact lt_irrefl d2 hgt

/-- The newer content post of the C1 witness. -/
def c1PostA : Post :=
  ⟨"", "./content/a.", "A", some "2024-02-02", PostType.content⟩

/-- The older content post of the C1 witness. -/
def c1PostB : Post :=
  ⟨"", "./content/b.", "B", some "2023-01-01", PostType.content⟩

/-- Concrete evaluation of the modelled sort for the C1 witness: the newer
post moves in front of the older one. -/
theorem c1_sort_eval :
    pySortByDateDesc [c1PostB, c1PostA] = .ok [c1PostA, c1PostB] := by
  have hBA : ¬ postGe c1PostB c1PostA := by
    intro hle
    have hstr : ("2024-02-02" : String) ≤ "2023-01-01" := hle
    exact absurd (String.le_iff_toList_le.mp hstr) (by decide)
  unfold pySortByDateDesc
  rw [if_neg (by decide)]
  congr 1
  show List.insertionSort postGe [c1PostB, c1PostA] = [c1PostA, c1PostB]
  simp [List.insertionSort, List.orderedInsert, hBA]

/-- Witness for C1: at the two concrete posts the theorem places the
2024-dated entry (position 0) before the 2023-dated one (position 1). -/
theorem c1_index_sorted_witness : (0 : Nat) < 1 :=
  c1_index_sorted [c1PostB, c1PostA] [c1PostA, c1PostB] c1_sort_eval
    0 1 (by decide) (by decide) "2024-02-02" "2023-01-01" rfl rfl
    (String.lt_iff_toList_lt.mpr (by decide))

/-- Converter for the C2 theorems: any text becomes an empty body with a
single `title` key.  -/
def c2Conv : String → String × Meta := fun _ => ("", [("title", ["Index"])])

/-- Filesystem for the C2 theorems: just the two template files. -/
def c2FS : FS :=
  [("templates/content.html", "C"), ("templates/meta.html", "M")]

/-- **C2, counterexample**: a complete successful run whose phase trace is
NOT the claimed order (load content, sort, write index, render content,
load root, render meta): the script loads the root-level Markdown (line
67) before it renders the content posts (line 69). -/
theorem c2_counterexample :
    (runPipelineT c2Conv jrConcat c2FS).2.2 = none
      ∧ (runPipelineT c2Conv jrConcat c2FS).1
          ≠ [Phase.loadContent, Phase.sortPosts, Phase.writeIndexFile,
             Phase.renderContent, Phase.loadRoot, Phase.renderMeta] := by
  decide

/-- **C2, amended**: the pipeline is a strict linear sequence of phases in
the order: load content posts, sort them, write `index.md`, load the
root-level Markdown (including the newly written `index.md`), render and
write the content posts, then render and write the meta posts; a complete
(error-free) run enters exactly these phases in this order. -/
theorem c2_phase_order (conv : String → String × Meta)
    (jr : String → List (String × String) → String) (fs0 : FS)
    (h : (runPipelineT conv jr fs0).2.2 = none) :
    (runPipelineT conv jr fs0).1 = fullTrace := by
  cases hres : getPosts conv fs0 (globFS fs0 isContentMd) PostType.content with
  | error e => simp [runPipelineT, hres] at h
  | ok cp =>
    cases hsort : pySortByDateDesc cp with
    | error e => simp [runPipelineT, hres, hsort] at h
    | ok sorted =>
      cases hmp : getPosts conv (writeFS fs0 "index.md" (indexText sorted))
          (globFS (writeFS fs0 "index.md" (indexText sorted)) isRootMd)
          PostType.meta with
      | error e => simp [runPipelineT, hres, hsort, hmp] at h
      | ok mp =>
        cases hmc : makeHtml jr (writeFS fs0 "index.md" (indexText sorted))
            sorted with
        | mk fs2 oe =>
          cases oe with
          | some e => simp [runPipelineT, hres, hsort, hmp, hmc] at h
          | none =>
            cases hmm2 : makeHtml jr fs2 mp with
            | mk fs3 oe2 =>
              simp [runPipelineT, hres, hsort, hmp, hmc, hmm2]

/-- Witness for the amended C2: the concrete run of `c2_counterexample`
enters exactly the six phases in the code's order. -/
theorem c2_phase_order_witness :
    (runPipelineT c2Conv jrConcat c2FS).1 = fullTrace :=
  c2_phase_order c2Conv jrConcat c2FS rfl

/-! ### Filesystem lemmas, towards the idempotence claim -/

theorem find?_map_write (p v : String) :
    ∀ fs : FS, fs.any (fun kv => kv.1 == p) = true →
      (fs.map (fun kv => if kv.1 == p then (p, v) else kv)).find?
          (fun kv => kv.1 == p) = some (p, v) := by
  intro fs
  induction fs with
  | nil => intro hany; cases hany
  | cons kv rest ih =>
    intro hany
    rw [List.map_cons, List.find?_cons]
    by_cases hk : (kv.1 == p) = true
    · rw [if_pos hk]
      simp
    · rw [if_neg hk, Bool.not_eq_true] at *
      rw [hk]
      rw [List.any_cons, hk, Bool.false_or] at hany
      exact ih hany

theorem find?_map_write_ne (p v q : String) (hqp : q ≠ p) (fs : FS) :
    (fs.map (fun kv => if kv.1 == p then (p, v) else kv)).find?
        (fun kv => kv.1 == q)
      = fs.find? (fun kv => kv.1 == q) := by
  induction fs with
  | nil => rfl
  | cons kv rest ih =>
    rw [List.map_cons, List.find?_cons, List.find?_cons]
    by_cases hk : (kv.1 == p) = true
    · rw [if_pos hk]
      have hknq : (kv.1 == q) = false := by
        rw [eq_of_beq hk]
        exact beq_eq_false_iff_ne.mpr (fun hc => hqp hc.symm)
      have hpnq : ((p, v).1 == q) = false :=
        beq_eq_false_iff_ne.mpr (fun hc => hqp hc.symm)
      rw [hknq, hpnq]
      exact ih
    · rw [if_neg hk]
      cases hkq : (kv.1 == q) with
      | true => rfl
      | false => exact ih

theorem readFS_writeFS_self (fs : FS) (p v : String) :
    readFS (writeFS fs p v) p = some v := by
  unfold writeFS
  split
  next hany =>
    unfold readFS
    rw [find?_map_write p v fs hany]
    rfl
  next hany =>
    rw [Bool.not_eq_true] at hany
    unfold readFS
    induction fs with
    | nil => simp
    | cons kv rest ih =>
      rw [List.any_cons, Bool.or_eq_false_iff] at hany
      rw [List.cons_append, List.find?_cons, hany.1]
      exact ih hany.2

theorem readFS_writeFS_ne (fs : FS) (p v q : String) (hqp : q ≠ p) :
    readFS (writeFS fs p v) q = readFS fs q := by
  unfold writeFS
  split
  · unfold readFS
    rw [find?_map_write_ne p v q hqp fs]
  · unfold readFS
    rw [List.find?_append]
    have hpq : ((p, v).1 == q) = false :=
      beq_eq_false_iff_ne.mpr (fun hc => hqp hc.symm)
    simp [List.find?_cons, hpq]

theorem keys_writeFS (fs : FS) (p v : String) :
    (writeFS fs p v).map Prod.fst
      = if fs.any (fun kv => kv.1 == p) = true then fs.map Prod.fst
        else fs.map Prod.fst ++ [p] := by
  unfold writeFS
  split
  next hany =>
    rw [List.map_map]
    apply List.map_congr_left
    intro kv _
    by_cases hk : (kv.1 == p) = true
    · simp [hk, eq_of_beq hk]
    · have hne : kv.1 ≠ p := fun hc => hk (by rw [hc]; exact beq_self_eq_true p)
      simp [hk, hne]
  next hany =>
    rw [List.map_append]
    rfl

theorem globFS_writeFS_false (fs : FS) (p v : String) (m : String → Bool)
    (hm : m p = false) :
    globFS (writeFS fs p v) m = globFS fs m := by
  unfold globFS
  rw [keys_writeFS]
  split
  · rfl
  · rw [List.filter_append]
    simp [hm]

theorem globFS_writeFS_mem (fs : FS) (p v : String) (m : String → Bool)
    (hmem : fs.any (fun kv => kv.1 == p) = true) :
    globFS (writeFS fs p v) m = globFS fs m := by
  unfold globFS
  rw [keys_writeFS, if_pos hmem]

theorem nodup_keys_writeFS (fs : FS) (p v : String)
    (hnd : (fs.map Prod.fst).Nodup) :
    ((writeFS fs p v).map Prod.fst).Nodup := by
  rw [keys_writeFS]
  split
  next hany => exact hnd
  next hany =>
    rw [Bool.not_eq_true] at hany
    have hnp : p ∉ fs.map Prod.fst := by
      intro hc
      rcases List.mem_map.mp hc with ⟨kv, hkv, hfst⟩
      have : fs.any (fun kv => kv.1 == p) = true :=
        List.any_eq_true.mpr ⟨kv, hkv, by rw [hfst]; exact beq_self_eq_true p⟩
      rw [hany] at this
      cases this
    simp [List.nodup_append, hnd, hnp]

theorem any_key_of_readFS_some (fs : FS) (p v : String)
    (h : readFS fs p = some v) : fs.any (fun kv => kv.1 == p) = true := by
  unfold readFS at h
  induction fs with
  | nil => cases h
  | cons kv rest ih =>
    rw [List.find?_cons] at h
    rw [List.any_cons]
    cases hk : (kv.1 == p) with
    | true => rfl
    | false =>
      rw [hk] at h
      rw [Bool.false_or]
      exact ih h

theorem map_write_id (p v : String) (fs : FS)
    (h : ∀ kv ∈ fs, (kv.1 == p) = true → kv.2 = v) :
    fs.map (fun kv => if kv.1 == p then (p, v) else kv) = fs := by
  induction fs with
  | nil => rfl
  | cons kv rest ih =>
    rw [List.map_cons]
    congr 1
    · by_cases hk : (kv.1 == p) = true
      · rw [if_pos hk]
        have h2 := h kv (List.mem_cons_self kv rest) hk
        have h1 := eq_of_beq hk
        rcases kv with ⟨k1, k2⟩
        dsimp at h1 h2
        rw [h1, h2]
      · rw [if_neg hk]
    · exact ih (fun kv' hm hk' => h kv' (List.mem_cons_of_mem _ hm) hk')

theorem nodup_key_all (p v : String) (fs : FS)
    (hnd : (fs.map Prod.fst).Nodup) (h : readFS fs p = some v) :
    ∀ kv ∈ fs, (kv.1 == p) = true → kv.2 = v := by
  induction fs with
  | nil => intro kv hm; cases hm
  | cons e rest ih =>
    intro kv hm hk
    rw [List.map_cons] at hnd
    have hnd' := List.nodup_cons.mp hnd
    unfold readFS at h
    rw [List.find?_cons] at h
    cases he : (e.1 == p) with
    | true =>
      rw [he] at h
      simp only [Option.map_some'] at h
      injection h with h
      rcases List.mem_cons.mp hm with rfl | hm'
      · exact h
      · exfalso
        have hmem : kv.1 ∈ rest.map Prod.fst :=
          List.mem_map_of_mem Prod.fst hm'
        rw [eq_of_beq hk] at hmem
        rw [eq_of_beq he] at hnd'
        exact hnd'.1 hmem
    | false =>
      rw [he] at h
      rcases List.mem_cons.mp hm with rfl | hm'
      · rw [hk] at he; cases he
      · exact ih hnd'.2 h kv hm' hk

theorem writeFS_self (fs : FS) (p v : String)
    (hnd : (fs.map Prod.fst).Nodup) (h : readFS fs p = some v) :
    writeFS fs p v = fs := by
  unfold writeFS
  rw [if_pos (any_key_of_readFS_some fs p v h)]
  exact map_write_id p v fs (nodup_key_all p v fs hnd h)

/-! ### Path shape lemmas -/

theorem charListEndsMd_append_html (l : List Char) :
    charListEndsMd (l ++ ['h', 't', 'm', 'l']) = false := by
  unfold charListEndsMd
  rw [decide_eq_false_iff_not]
  intro hc
  rw [List.reverse_append] at hc
  rw [List.take_append_of_le_length (by decide)] at hc
  exact absurd hc (by decide)

theorem endsMd_shape (l : List Char) (h : charListEndsMd l = true) :
    l = l.dropLast.dropLast ++ ['m', 'd'] := by
  unfold charListEndsMd at h
  rw [decide_eq_true_eq] at h
  obtain ⟨x, hl⟩ : ∃ x, l = x ++ ['.', 'm', 'd'] := by
    refine ⟨(l.reverse.drop 3).reverse, ?_⟩
    conv_lhs => rw [← l.reverse_reverse]
    rw [← List.take_append_drop 3 l.reverse, h, List.reverse_append]
    rfl
  subst hl
  rw [dropLast2_append_md]
  simp

theorem pyDropLast2_inj (p q : String) (hp : charListEndsMd p.data = true)
    (hq : charListEndsMd q.data = true) (h : pyDropLast2 p = pyDropLast2 q) :
    p = q := by
  apply String.ext
  rw [endsMd_shape p.data hp, endsMd_shape q.data hq]
  have hd : p.data.dropLast.dropLast = q.data.dropLast.dropLast :=
    congrArg String.data h
  rw [hd]

theorem outPath_data (post : Post) :
    (outPath post).data = post.filename.data ++ ['h', 't', 'm', 'l'] := by
  unfold outPath
  rw [String.data_append]

theorem charListEndsMd_outPath (post : Post) :
    charListEndsMd (outPath post).data = false := by
  rw [outPath_data]
  exact charListEndsMd_append_html post.filename.data

theorem isContentMd_endsMd (s : String) (h : isContentMd s = true) :
    charListEndsMd s.data = true := by
  unfold isContentMd at h
  simp only [Bool.and_eq_true] at h
  exact h.1.1.2

theorem isRootMd_endsMd (s : String) (h : isRootMd s = true) :
    charListEndsMd s.data = true := by
  unfold isRootMd at h
  simp only [Bool.and_eq_true] at h
  exact h.2

theorem isContentMd_outPath (post : Post) :
    isContentMd (outPath post) = false := by
  rw [← Bool.not_eq_true]
  intro hc
  have h1 := isContentMd_endsMd (outPath post) hc
  rw [charListEndsMd_outPath post] at h1
  cases h1

theorem isRootMd_outPath (post : Post) :
    isRootMd (outPath post) = false := by
  rw [← Bool.not_eq_true]
  intro hc
  have h1 := isRootMd_endsMd (outPath post) hc
  rw [charListEndsMd_outPath post] at h1
  cases h1

theorem outPath_ne_of_endsMd (post : Post) (r : String)
    (hr : charListEndsMd r.data = true) : outPath post ≠ r := by
  intro hc
  rw [← hc] at hr
  rw [charListEndsMd_outPath post] at hr
  cases hr

theorem outPath_ne_index (post : Post) : outPath post ≠ "index.md" :=
  outPath_ne_of_endsMd post "index.md" (by decide)

theorem ne_of_head (s r : String) (a b : Char) (hs : s.data.head? = some a)
    (hr : r.data.head? = some b) (hab : a ≠ b) : s ≠ r := by
  intro hc
  rw [hc, hr] at hs
  injection hs with hs
  exact hab hs.symm

theorem ne_of_slash (s r : String) (hs : ('/' : Char) ∉ s.data)
    (hr : ('/' : Char) ∈ r.data) : s ≠ r := by
  intro hc
  rw [hc] at hs
  exact hs hr

theorem head?_dropLast2 (a b c : Char) (t : List Char) :
    ((a :: b :: c :: t).dropLast.dropLast).head? = some a := by
  have h1 : (a :: b :: c :: t).dropLast = a :: b :: (c :: t).dropLast := rfl
  rw [h1]
  have h2 : (a :: b :: (c :: t).dropLast).dropLast
      = a :: (b :: (c :: t).dropLast).dropLast := rfl
  rw [h2]
  rfl

theorem dropLast2_cases (l : List Char) :
    (l.dropLast.dropLast).head? = l.head? ∨ l.dropLast.dropLast = [] := by
  match l with
  | [] => exact Or.inr rfl
  | [a] => exact Or.inr rfl
  | [a, b] => exact Or.inr rfl
  | a :: b :: c :: t => exact Or.inl (head?_dropLast2 a b c t)

theorem startsContent_shape (l : List Char) (h : startsContent l = true) :
    ∃ t, l = '.' :: '/' :: 'c' :: 'o' :: 'n' :: 't' :: 'e' :: 'n' :: 't'
      :: '/' :: t := by
  unfold startsContent at h
  rw [decide_eq_true_eq] at h
  refine ⟨l.drop 10, ?_⟩
  conv_lhs => rw [← List.take_append_drop 10 l, h]
  rfl

theorem isContentMd_startsContent (s : String) (h : isContentMd s = true) :
    startsContent s.data = true := by
  unfold isContentMd at h
  simp only [Bool.and_eq_true] at h
  exact h.1.1.1

theorem contentMd_filename_head (q : String) (h : isContentMd q = true) :
    (pyDropLast2 q).data.head? = some '.' := by
  obtain ⟨t, ht⟩ := startsContent_shape q.data (isContentMd_startsContent q h)
  unfold pyDropLast2
  show (q.data.dropLast.dropLast).head? = some '.'
  rw [ht]
  exact head?_dropLast2 _ _ _ _

theorem contentMd_slash (q : String) (h : isContentMd q = true) :
    ('/' : Char) ∈ q.data := by
  obtain ⟨t, ht⟩ := startsContent_shape q.data (isContentMd_startsContent q h)
  rw [ht]
  exact List.mem_cons_of_mem _ (List.mem_cons_self _ _)

theorem isRootMd_no_slash (s : String) (h : isRootMd s = true) :
    ('/' : Char) ∉ s.data := by
  unfold isRootMd at h
  simp only [Bool.and_eq_true] at h
  have hns := h.1.2
  rw [Bool.not_eq_true'] at hns
  intro hc
  simp at hns
  exact hns hc

theorem isRootMd_head (s : String) (h : isRootMd s = true) :
    ∃ c t, s.data = c :: t ∧ c ≠ '.' := by
  unfold isRootMd at h
  simp only [Bool.and_eq_true] at h
  have hh := h.1.1
  cases hd : s.data with
  | nil => rw [hd] at hh; cases hh
  | cons c t =>
    rw [hd] at hh
    refine ⟨c, t, rfl, ?_⟩
    simp only [List.head?] at hh
    rw [Bool.not_eq_true'] at hh
    rw [decide_eq_false_iff_not] at hh
    exact hh

theorem rootMd_filename_no_slash (q : String) (h : isRootMd q = true) :
    ('/' : Char) ∉ (pyDropLast2 q).data := by
  intro hc
  apply isRootMd_no_slash q h
  show ('/' : Char) ∈ q.data
  have h1 : (pyDropLast2 q).data = q.data.dropLast.dropLast := rfl
  rw [h1] at hc
  exact List.dropLast_subset _ (List.dropLast_subset _ hc)

theorem outPath_head (post : Post) :
    (outPath post).data.head? = post.filename.data.head?.or (some 'h') := by
  rw [outPath_data, List.head?_append]
  rfl

/-! ### Stability lemmas for the pipeline passes -/

theorem renderHtml_congr (jr : String → List (String × String) → String)
    (fs fs' : FS) (p : Post)
    (htc : readFS fs' "templates/content.html"
      = readFS fs "templates/content.html")
    (htm : readFS fs' "templates/meta.html"
      = readFS fs "templates/meta.html") :
    renderHtml jr fs' p = renderHtml jr fs p := by
  obtain ⟨pc, pf, pt, pd, ptype⟩ := p
  unfold renderHtml
  cases ptype with
  | content => rw [htc]
  | meta => rw [htm]

theorem makeHtml_readFS_stable (jr : String → List (String × String) → String)
    (posts : List Post) (q : String) :
    ∀ (fs fs' : FS) (e : Option PyErr), (∀ post ∈ posts, outPath post ≠ q) →
      makeHtml jr fs posts = (fs', e) → readFS fs' q = readFS fs q := by
  induction posts with
  | nil =>
    intro fs fs' e _ h
    simp only [makeHtml] at h
    injection h with h1 h2
    rw [← h1]
  | cons p rest ih =>
    intro fs fs' e hq h
    simp only [makeHtml] at h
    split at h
    next er hr =>
      injection h with h1 h2
      rw [← h1]
    next hh hr =>
      have hrec := ih (writeFS fs (outPath p) hh) fs' e
        (fun post hm => hq post (List.mem_cons_of_mem _ hm)) h
      rw [hrec, readFS_writeFS_ne fs (outPath p) hh q
        (Ne.symm (hq p (List.mem_cons_self p rest)))]

theorem makeHtml_glob_stable (jr : String → List (String × String) → String)
    (posts : List Post) (m : String → Bool) :
    ∀ (fs fs' : FS) (e : Option PyErr),
      (∀ post ∈ posts, m (outPath post) = false) →
      makeHtml jr fs posts = (fs', e) → globFS fs' m = globFS fs m := by
  induction posts with
  | nil =>
    intro fs fs' e _ h
    simp only [makeHtml] at h
    injection h with h1 h2
    rw [← h1]
  | cons p rest ih =>
    intro fs fs' e hq h
    simp only [makeHtml] at h
    split at h
    next er hr =>
      injection h with h1 h2
      rw [← h1]
    next hh hr =>
      have hrec := ih (writeFS fs (outPath p) hh) fs' e
        (fun post hm => hq post (List.mem_cons_of_mem _ hm)) h
      rw [hrec, globFS_writeFS_false fs (outPath p) hh m
        (hq p (List.mem_cons_self p rest))]

theorem makeHtml_nodup (jr : String → List (String × String) → String)
    (posts : List Post) :
    ∀ (fs fs' : FS) (e : Option PyErr), (fs.map Prod.fst).Nodup →
      makeHtml jr fs posts = (fs', e) → (fs'.map Prod.fst).Nodup := by
  induction posts with
  | nil =>
    intro fs fs' e hnd h
    simp only [makeHtml] at h
    injection h with h1 h2
    rw [← h1]
    exact hnd
  | cons p rest ih =>
    intro fs fs' e hnd h
    simp only [makeHtml] at h
    split at h
    next er hr =>
      injection h with h1 h2
      rw [← h1]
      exact hnd
    next hh hr =>
      exact ih (writeFS fs (outPath p) hh) fs' e
        (nodup_keys_writeFS fs (outPath p) hh hnd) h

theorem makeHtml_renders (jr : String → List (String × String) → String)
    (posts : List Post) :
    ∀ (fs fs' : FS), (posts.map outPath).Nodup →
      (∀ post ∈ posts, outPath post ≠ "templates/content.html" ∧
        outPath post ≠ "templates/meta.html") →
      makeHtml jr fs posts = (fs', none) →
      ∀ post ∈ posts, ∃ hh, renderHtml jr fs post = .ok hh ∧
        readFS fs' (outPath post) = some hh := by
  induction posts with
  | nil => intro fs fs' _ _ _ post hm; cases hm
  | cons p rest ih =>
    intro fs fs' hnd htpl h post hm
    simp only [makeHtml] at h
    split at h
    next er hr =>
      injection h with h1 h2
      cases h2
    next hh hr =>
      rw [List.map_cons, List.nodup_cons] at hnd
      rcases List.mem_cons.mp hm with rfl | hm'
      · refine ⟨hh, hr, ?_⟩
        have hstable := makeHtml_readFS_stable jr rest (outPath post)
          (writeFS fs (outPath post) hh) fs' none
          (fun post' hm' hc => hnd.1 (hc ▸ List.mem_map_of_mem outPath hm'))
          h
        rw [hstable, readFS_writeFS_self]
      · obtain ⟨hh', hr', hread⟩ := ih (writeFS fs (outPath p) hh) fs'
          hnd.2 (fun r hqq => htpl r (List.mem_cons_of_mem _ hqq)) h post hm'
        refine ⟨hh', ?_, hread⟩
        rw [← hr']
        exact (renderHtml_congr jr fs (writeFS fs (outPath p) hh) post
          (readFS_writeFS_ne fs (outPath p) hh _
            (Ne.symm (htpl p (List.mem_cons_self p rest)).1))
          (readFS_writeFS_ne fs (outPath p) hh _
            (Ne.symm (htpl p (List.mem_cons_self p rest)).2))).symm

theorem makeHtml_id (jr : String → List (String × String) → String)
    (posts : List Post) (fs : FS) (hnd : (fs.map Prod.fst).Nodup)
    (h : ∀ post ∈ posts, ∃ hh, renderHtml jr fs post = .ok hh ∧
      readFS fs (outPath post) = some hh) :
    makeHtml jr fs posts = (fs, none) := by
  induction posts with
  | nil => rfl
  | cons p rest ih =>
    obtain ⟨hh, hr, hv⟩ := h p (List.mem_cons_self p rest)
    simp only [makeHtml]
    rw [hr]
    show makeHtml jr (writeFS fs (outPath p) hh) rest = (fs, none)
    rw [writeFS_self fs (outPath p) hh hnd hv]
    exact ih (fun q hq => h q (List.mem_cons_of_mem _ hq))

theorem getPosts_congr (conv : String → String × Meta)
    (paths : List String) (t : PostType) :
    ∀ (fs fs' : FS), (∀ p ∈ paths, readFS fs' p = readFS fs p) →
      getPosts conv fs' paths t = getPosts conv fs paths t := by
  induction paths with
  | nil => intro fs fs' _; rfl
  | cons q rest ih =>
    intro fs fs' h
    simp only [getPosts]
    rw [h q (List.mem_cons_self q rest),
      ih fs fs' (fun p hp => h p (List.mem_cons_of_mem _ hp))]

theorem getPosts_filenames (conv : String → String × Meta) (fs : FS)
    (paths : List String) (t : PostType) :
    ∀ posts, getPosts conv fs paths t = .ok posts →
      posts.map Post.filename
        = (paths.filter (fun p => !(p == "README.md"))).map pyDropLast2 := by
  induction paths with
  | nil =>
    intro posts h
    injection h with h
    rw [← h]
    rfl
  | cons q rest ih =>
    intro posts h
    simp only [getPosts] at h
    by_cases hq : (q == "README.md") = true
    · rw [if_pos hq] at h
      rw [List.filter_cons]
      have hb : (!(q == "README.md")) = false := by rw [hq]; rfl
      rw [hb, if_neg Bool.false_ne_true]
      exact ih posts h
    · rw [if_neg hq] at h
      split at h
      · simp at h
      next data hr =>
        split at h
        · simp at h
        next post hm =>
          split at h
          · simp at h
          next posts' hrest =>
            injection h with h
            rw [← h, List.map_cons, List.filter_cons]
            have hq' : (!(q == "README.md")) = true := by
              cases hqq : (q == "README.md") with
              | true => exact absurd hqq hq
              | false => rfl
            rw [if_pos hq', List.map_cons]
            congr 1
            · exact (makePost_ok _ _ _ _ _ hm).2.1
            · exact ih posts' hrest

theorem getPosts_mem_origin (conv : String → String × Meta) (fs : FS)
    (paths : List String) (t : PostType) (posts : List Post)
    (h : getPosts conv fs paths t = .ok posts) (post : Post)
    (hm : post ∈ posts) :
    ∃ q, q ∈ paths ∧ (q == "README.md") = false ∧
      post.filename = pyDropLast2 q := by
  have hmap := getPosts_filenames conv fs paths t posts h
  have hmem : post.filename ∈ posts.map Post.filename :=
    List.mem_map_of_mem _ hm
  rw [hmap] at hmem
  rcases List.mem_map.mp hmem with ⟨q, hq, hfq⟩
  rcases List.mem_filter.mp hq with ⟨hq1, hq2⟩
  refine ⟨q, hq1, ?_, hfq.symm⟩
  cases hqq : (q == "README.md") with
  | true => rw [hqq] at hq2; cases hq2
  | false => rfl

theorem pySort_ok (posts sorted : List Post)
    (h : pySortByDateDesc posts = .ok sorted) :
    sorted = List.insertionSort postGe posts := by
  unfold pySortByDateDesc at h
  split at h
  · cases h
  · injection h with h
    exact h.symm

theorem glob_mem (fs : FS) (m : String → Bool) (p : String)
    (h : p ∈ globFS fs m) : m p = true :=
  (List.mem_filter.mp h).2

theorem glob_nodup (fs : FS) (m : String → Bool)
    (hnd : (fs.map Prod.fst).Nodup) : (globFS fs m).Nodup :=
  hnd.filter m

theorem contentPost_facts (post : Post) (q : String)
    (hq : isContentMd q = true) (hf : post.filename = pyDropLast2 q) :
    (outPath post).data.head? = some '.' ∧
      ('/' : Char) ∈ (outPath post).data := by
  constructor
  · rw [outPath_head, hf, contentMd_filename_head q hq]
    rfl
  · rw [outPath_data]
    apply List.mem_append_left
    rw [hf]
    show ('/' : Char) ∈ q.data.dropLast.dropLast
    have hmem := contentMd_slash q hq
    conv at hmem => rw [endsMd_shape q.data (isContentMd_endsMd q hq)]
    rcases List.mem_append.mp hmem with h1 | h1
    · exact h1
    · exact absurd h1 (by decide)

theorem rootPost_facts (post : Post) (q : String) (hq : isRootMd q = true)
    (hf : post.filename = pyDropLast2 q) :
    ('/' : Char) ∉ (outPath post).data := by
  rw [outPath_data]
  intro hc
  rcases List.mem_append.mp hc with h1 | h1
  · rw [hf] at h1
    exact rootMd_filename_no_slash q hq h1
  · exact absurd h1 (by decide)

theorem outPath_ne_templates_of_head (post : Post)
    (h : (outPath post).data.head? = some '.') :
    outPath post ≠ "templates/content.html" ∧
      outPath post ≠ "templates/meta.html" :=
  ⟨ne_of_head _ _ '.' 't' h (by decide) (by decide),
   ne_of_head _ _ '.' 't' h (by decide) (by decide)⟩

theorem outPath_ne_templates_of_slash (post : Post)
    (h : ('/' : Char) ∉ (outPath post).data) :
    outPath post ≠ "templates/content.html" ∧
      outPath post ≠ "templates/meta.html" :=
  ⟨ne_of_slash _ _ h (by decide), ne_of_slash _ _ h (by decide)⟩

theorem nodup_outPaths (posts : List Post) (paths : List String)
    (hmapeq : posts.map Post.filename
      = (paths.filter (fun p => !(p == "README.md"))).map pyDropLast2)
    (hnd : paths.Nodup)
    (hmd : ∀ q ∈ paths, charListEndsMd q.data = true) :
    (posts.map outPath).Nodup := by
  have h1 : (posts.map Post.filename).Nodup := by
    rw [hmapeq]
    apply List.Nodup.map_on ?_ (hnd.filter _)
    intro x hx y hy hxy
    exact pyDropLast2_inj x y (hmd x (List.mem_filter.mp hx).1)
      (hmd y (List.mem_filter.mp hy).1) hxy
  have h2 : posts.map outPath
      = (posts.map Post.filename).map (fun f => f ++ "html") := by
    rw [List.map_map]
    rfl
  rw [h2]
  apply List.Nodup.map_on ?_ h1
  intro x _ y _ hxy
  apply String.ext
  have hd := congrArg String.data hxy
  rw [String.data_append, String.data_append] at hd
  exact List.append_cancel_right hd

/-- **C9**: rerunning the whole pipeline on the filesystem produced by a
complete successful run reproduces exactly that filesystem byte for byte —
`index.md` and `index.html` included — with the same phase trace: every
output is a deterministic function of the unchanged source files and
templates, and the second run overwrites each output with an identical
value. -/
theorem c9_idempotent (conv : String → String × Meta)
    (jr : String → List (String × String) → String) (fs0 : FS)
    (tr : List Phase) (fs1 : FS) (hnd : (fs0.map Prod.fst).Nodup)
    (h : runPipelineT conv jr fs0 = (tr, fs1, none)) :
    runPipelineT conv jr fs1 = (tr, fs1, none) := by
  cases hcp : getPosts conv fs0 (globFS fs0 isContentMd) PostType.content with
  | error e => simp [runPipelineT, hcp] at h
  | ok cp =>
  cases hsort : pySortByDateDesc cp with
  | error e => simp [runPipelineT, hcp, hsort] at h
  | ok sorted =>
  cases hmp : getPosts conv (writeFS fs0 "index.md" (indexText sorted))
      (globFS (writeFS fs0 "index.md" (indexText sorted)) isRootMd)
      PostType.meta with
  | error e => simp [runPipelineT, hcp, hsort, hmp] at h
  | ok mp =>
  cases hmc : makeHtml jr (writeFS fs0 "index.md" (indexText sorted))
      sorted with
  | mk fsB oe =>
  cases oe with
  | some e => simp [runPipelineT, hcp, hsort, hmp, hmc] at h
  | none =>
  cases hmm2 : makeHtml jr fsB mp with
  | mk fsC oe2 =>
  have hred : runPipelineT conv jr fs0 = (fullTrace, fsC, oe2) := by
    simp [runPipelineT, hcp, hsort, hmp, hmc, hmm2]
  rw [hred] at h
  injection h with htr h
  injection h with hfs hoe
  subst htr
  subst hfs
  subst hoe
  obtain ⟨fsA, hfsA⟩ :
      ∃ fsA, writeFS fs0 "index.md" (indexText sorted) = fsA := ⟨_, rfl⟩
  rw [hfsA] at hmp hmc
  have hndA : (fsA.map Prod.fst).Nodup := by
    rw [← hfsA]
    exact nodup_keys_writeFS fs0 _ _ hnd
  have hndB : (fsB.map Prod.fst).Nodup :=
    makeHtml_nodup jr sorted fsA fsB none hndA hmc
  have hndC : (fsC.map Prod.fst).Nodup :=
    makeHtml_nodup jr mp fsB fsC none hndB hmm2
  have hperm : List.Perm sorted cp := by
    rw [pySort_ok cp sorted hsort]
    exact List.perm_insertionSort postGe cp
  have hcontent_origin : ∀ post ∈ sorted,
      ∃ q, isContentMd q = true ∧ post.filename = pyDropLast2 q := by
    intro post hm
    obtain ⟨q, hq1, _, hq3⟩ := getPosts_mem_origin conv fs0 _ _ cp hcp post
      (hperm.mem_iff.mp hm)
    exact ⟨q, glob_mem fs0 isContentMd q hq1, hq3⟩
  have hroot_origin : ∀ post ∈ mp,
      ∃ q, isRootMd q = true ∧ post.filename = pyDropLast2 q := by
    intro post hm
    obtain ⟨q, hq1, _, hq3⟩ := getPosts_mem_origin conv fsA _ _ mp hmp post hm
    exact ⟨q, glob_mem fsA isRootMd q hq1, hq3⟩
  have hcfacts : ∀ post ∈ sorted, (outPath post).data.head? = some '.' ∧
      ('/' : Char) ∈ (outPath post).data := by
    intro post hm
    obtain ⟨q, hq, hf⟩ := hcontent_origin post hm
    exact contentPost_facts post q hq hf
  have hrfacts : ∀ post ∈ mp, ('/' : Char) ∉ (outPath post).data := by
    intro post hm
    obtain ⟨q, hq, hf⟩ := hroot_origin post hm
    exact rootPost_facts post q hq hf
  have hctpl : ∀ post ∈ sorted,
      outPath post ≠ "templates/content.html" ∧
        outPath post ≠ "templates/meta.html" :=
    fun post hm => outPath_ne_templates_of_head post (hcfacts post hm).1
  have hrtpl : ∀ post ∈ mp,
      outPath post ≠ "templates/content.html" ∧
        outPath post ≠ "templates/meta.html" :=
    fun post hm => outPath_ne_templates_of_slash post (hrfacts post hm)
  have hcross : ∀ pc ∈ sorted, ∀ pm ∈ mp, outPath pm ≠ outPath pc :=
    fun pc hmcc pm hmmm =>
      ne_of_slash _ _ (hrfacts pm hmmm) (hcfacts pc hmcc).2
  have hnodup_sorted : (sorted.map outPath).Nodup := by
    have h0 : (cp.map outPath).Nodup := by
      apply nodup_outPaths cp (globFS fs0 isContentMd)
        (getPosts_filenames conv fs0 _ _ cp hcp)
        (glob_nodup fs0 isContentMd hnd)
      intro q hq
      exact isContentMd_endsMd q (glob_mem fs0 isContentMd q hq)
    exact ((hperm.map outPath).nodup_iff).mpr h0
  have hnodup_mp : (mp.map outPath).Nodup := by
    apply nodup_outPaths mp (globFS fsA isRootMd)
      (getPosts_filenames conv fsA _ _ mp hmp)
      (glob_nodup fsA isRootMd hndA)
    intro q hq
    exact isRootMd_endsMd q (glob_mem fsA isRootMd q hq)
  have hmdAC : ∀ r : String, charListEndsMd r.data = true →
      readFS fsC r = readFS fsA r := by
    intro r hr
    rw [makeHtml_readFS_stable jr mp r fsB fsC none
      (fun post _ => outPath_ne_of_endsMd post r hr) hmm2]
    exact makeHtml_readFS_stable jr sorted r fsA fsB none
      (fun post _ => outPath_ne_of_endsMd post r hr) hmc
  have htcB : readFS fsB "templates/content.html"
      = readFS fsA "templates/content.html" :=
    makeHtml_readFS_stable jr sorted _ fsA fsB none
      (fun post hm => (hctpl post hm).1) hmc
  have htmB : readFS fsB "templates/meta.html"
      = readFS fsA "templates/meta.html" :=
    makeHtml_readFS_stable jr sorted _ fsA fsB none
      (fun post hm => (hctpl post hm).2) hmc
  have htcC : readFS fsC "templates/content.html"
      = readFS fsB "templates/content.html" :=
    makeHtml_readFS_stable jr mp _ fsB fsC none
      (fun post hm => (hrtpl post hm).1) hmm2
  have htmC : readFS fsC "templates/meta.html"
      = readFS fsB "templates/meta.html" :=
    makeHtml_readFS_stable jr mp _ fsB fsC none
      (fun post hm => (hrtpl post hm).2) hmm2
  have hglobC_content : globFS fsC isContentMd = globFS fs0 isContentMd := by
    rw [makeHtml_glob_stable jr mp isContentMd fsB fsC none
      (fun post _ => isContentMd_outPath post) hmm2]
    rw [makeHtml_glob_stable jr sorted isContentMd fsA fsB none
      (fun post _ => isContentMd_outPath post) hmc]
    rw [← hfsA]
    exact globFS_writeFS_false fs0 "index.md" (indexText sorted) isContentMd
      (by decide)
  have hglobC_root : globFS fsC isRootMd = globFS fsA isRootMd := by
    rw [makeHtml_glob_stable jr mp isRootMd fsB fsC none
      (fun post _ => isRootMd_outPath post) hmm2]
    exact makeHtml_glob_stable jr sorted isRootMd fsA fsB none
      (fun post _ => isRootMd_outPath post) hmc
  have hidx : readFS fsC "index.md" = some (indexText sorted) := by
    rw [hmdAC "index.md" (by decide), ← hfsA]
    exact readFS_writeFS_self fs0 "index.md" (indexText sorted)
  have hidx_write : writeFS fsC "index.md" (indexText sorted) = fsC :=
    writeFS_self fsC _ _ hndC hidx
  have hcp2 : getPosts conv fsC (globFS fsC isContentMd) PostType.content
      = .ok cp := by
    rw [hglobC_content]
    rw [getPosts_congr conv (globFS fs0 isContentMd) PostType.content
      fs0 fsC ?hreads]
    · exact hcp
    case hreads =>
      intro p hp
      have hpc := glob_mem fs0 isContentMd p hp
      rw [hmdAC p (isContentMd_endsMd p hpc), ← hfsA]
      apply readFS_writeFS_ne
      intro hc
      rw [hc] at hpc
      exact absurd hpc (by decide)
  have hmp2 : getPosts conv fsC (globFS fsC isRootMd) PostType.meta
      = .ok mp := by
    rw [hglobC_root]
    rw [getPosts_congr conv (globFS fsA isRootMd) PostType.meta
      fsA fsC ?hreads2]
    · exact hmp
    case hreads2 =>
      intro p hp
      exact hmdAC p (isRootMd_endsMd p (glob_mem fsA isRootMd p hp))
  have hrenders_c := makeHtml_renders jr sorted fsA fsB hnodup_sorted
    hctpl hmc
  have hrenders_m := makeHtml_renders jr mp fsB fsC hnodup_mp hrtpl hmm2
  have hmc2 : makeHtml jr fsC sorted = (fsC, none) := by
    apply makeHtml_id jr sorted fsC hndC
    intro post hm
    obtain ⟨hh, hr, hread⟩ := hrenders_c post hm
    refine ⟨hh, ?_, ?_⟩
    · rw [← hr]
      exact renderHtml_congr jr fsA fsC post (htcC.trans htcB)
        (htmC.trans htmB)
    · rw [makeHtml_readFS_stable jr mp (outPath post) fsB fsC none
        (fun pm hmm_ => hcross post hm pm hmm_) hmm2]
      exact hread
  have hmm22 : makeHtml jr fsC mp = (fsC, none) := by
    apply makeHtml_id jr mp fsC hndC
    intro post hm
    obtain ⟨hh, hr, hread⟩ := hrenders_m post hm
    refine ⟨hh, ?_, hread⟩
    rw [← hr]
    exact renderHtml_congr jr fsB fsC post htcC htmC
  simp [runPipelineT, hcp2, hsort, hidx_write, hmp2, hmc2, hmm22]

/-- Converter for the C9 witness. -/
def c9Conv : String → String × Meta := fun _ => ("", [("title", ["Index"])])

/-- Initial filesystem for the C9 witness: just a meta template. -/
def c9FS0 : FS := [("templates/meta.html", "M")]

/-- The filesystem produced by the first run of the C9 witness. -/
def c9FS1 : FS :=
  [("templates/meta.html", "M"), ("index.md", "title: Index\n\n"),
   ("index.html", "MIndex")]

/-- Witness for C9: rerunning the pipeline on the concrete output
filesystem reproduces it unchanged. -/
theorem c9_idempotent_witness :
    runPipelineT c9Conv jrConcat c9FS1 = (fullTrace, c9FS1, none) :=
  c9_idempotent c9Conv jrConcat c9FS0 fullTrace c9FS1 (by decide) (by decide)

end Gen
